import Mathlib

/-!
Shallow embedding of the `VersionCheck` version-comparison engine
(`src/utils/version.py`) together with the parts of the third-party
`packaging.version` library that the engine delegates to.

Python strings are Lean `String`s (compared by code points, as Python does);
fallible Python code is modelled in `Except PyErr`; `re` pattern matching for
the concrete regexes of the source is translated into executable parsers with
the leftmost/greedy semantics of Python's `re.match` / `re.findall`.
-/

namespace VersionCheck

/-- Python exceptions that the modelled code can raise:
`TypeError` (from `re.match` applied to a tuple), `AttributeError`
(`match.group` on a failed `re.match`), the `Exception("Unsupported
comparison")` of `_execute_comparison`, and the wrapping re-raise performed
by `is_covered`. -/
inductive PyErr where
  | typeError
  | attributeError
  | unsupportedComparison
  | wrapped (e : PyErr)
deriving DecidableEq, Repr

/-- A value produced by `re.findall`: a plain string when the pattern has one
capture group, a tuple of group strings when it has several. -/
inductive PyVal where
  | str (s : String)
  | tuple (ss : List String)
deriving DecidableEq, Repr

/-- Decidable equality of modelled Python results. -/
instance {ε α : Type} [DecidableEq ε] [DecidableEq α] :
    DecidableEq (Except ε α) := fun x y =>
  match x, y with
  | .ok a, .ok b =>
    if h : a = b then isTrue (by rw [h])
    else isFalse (fun hh => h (by injection hh))
  | .ok _, .error _ => isFalse (fun hh => Except.noConfusion hh)
  | .error _, .ok _ => isFalse (fun hh => Except.noConfusion hh)
  | .error e, .error f =>
    if h : e = f then isTrue (by rw [h])
    else isFalse (fun hh => h (by injection hh))

/-! Section: Ordering of Python primitive values -/

/-- Comparison of natural numbers (Python nonnegative `int`s). -/
def natCmp (a b : Nat) : Ordering :=
  if a < b then .lt else if a = b then .eq else .gt

/-- Comparison of characters by code point, as Python compares them. -/
def charCmp (a b : Char) : Ordering :=
  natCmp a.toNat b.toNat

/-- Lexicographic comparison of lists, a proper prefix being smaller.  This is
how Python compares strings and (same-arity) tuples of comparable values. -/
def lexCmp (f : α → α → Ordering) : List α → List α → Ordering
  | [], [] => .eq
  | [], _ :: _ => .lt
  | _ :: _, [] => .gt
  | a :: as, b :: bs => (f a b).then (lexCmp f as bs)

/-- Python string comparison (lexicographic by code point). -/
def strCmp (a b : String) : Ordering :=
  lexCmp charCmp a.data b.data

/-! Section: The `_PATTERN` grammar

`_PATTERN = (\d+(?:(?:\.\d+){0,2})(?:(?:\.\*)|(?:\.\d+))?)`
`           ((?:[a-zA-Z]{1}|\*)|(?:(?:-|_|\+)(?:[a-zA-Z0-9_\-\+]+|\*)))?`

Group 1 is 1 to 4 dot-separated digit groups whose final group may be `*`;
group 2 is an optional suffix: one letter, a `*`, or a delimiter (`-`, `_`,
`+`) followed by a nonempty run over `[a-zA-Z0-9_\-\+]` or a single `*`. -/

/-- Longest run of ASCII digits at the head of the list, with the rest. -/
def takeDigits : List Char → List Char × List Char
  | [] => ([], [])
  | c :: cs =>
    if c.isDigit then
      let (ds, r) := takeDigits cs
      (c :: ds, r)
    else ([], c :: cs)

/-- Value of a digit run (Python `int` of a digit-only string). -/
def digitsToNat (ds : List Char) : Nat :=
  ds.foldl (fun n c => 10 * n + (c.toNat - 48)) 0

/-- A nonempty all-digit group. -/
def digitsGroup (cs : List Char) : Bool :=
  !cs.isEmpty && cs.all (·.isDigit)

/-- Split a character list on `'.'` (like Python `str.split(".")`). -/
def splitDots : List Char → List (List Char)
  | [] => [[]]
  | c :: cs =>
    if c = '.' then [] :: splitDots cs
    else
      match splitDots cs with
      | g :: gs => (c :: g) :: gs
      | [] => [[c]]

/-- Delimiter characters allowed to introduce a suffix. -/
def isDelim (c : Char) : Bool :=
  c == '-' || c == '_' || c == '+'

/-- The character class `[a-zA-Z0-9_\-\+]` of a delimited suffix tail. -/
def suffixChar (c : Char) : Bool :=
  c.isAlphanum || c == '_' || c == '-' || c == '+'

/-- Membership in the language of `_PATTERN`'s group 1: up to four
dot-separated digit groups, the final one possibly the wildcard `*`. -/
def isCore (cs : List Char) : Bool :=
  match splitDots cs with
  | [g1] => digitsGroup g1
  | [g1, g2] => digitsGroup g1 && (digitsGroup g2 || g2 == ['*'])
  | [g1, g2, g3] =>
    digitsGroup g1 && digitsGroup g2 && (digitsGroup g3 || g3 == ['*'])
  | [g1, g2, g3, g4] =>
    digitsGroup g1 && digitsGroup g2 && digitsGroup g3 &&
      (digitsGroup g4 || g4 == ['*'])
  | _ => false

/-- Membership in the language of `_PATTERN`'s group 2 (a nonempty suffix). -/
def isSuffix : List Char → Bool
  | [] => false
  | [c] => c.isAlpha || c == '*'
  | c :: rest => isDelim c && (rest.all suffixChar || rest == ['*'])

/-- Function `VersionCheck.is_valid`: `re.match(f"^{_PATTERN}$", v)` succeeds, i.e. the
whole string decomposes into a core followed by an optional suffix. -/
def is_valid (v : String) : Bool :=
  (List.range (v.data.length + 1)).any fun i =>
    isCore (v.data.take i) &&
      ((v.data.drop i).isEmpty || isSuffix (v.data.drop i))

/-! Section: `_split_suffix` as the greedy leftmost `re.match(_PATTERN, v)`

The regex never backtracks on these inputs (each component after the
mandatory `\d+` is optional), so `re.match` is the greedy parse below.  A
string whose first character is not a digit yields no match, and
`match.group` then raises `AttributeError`. -/

/-- Greedy `(?:\.\d+){0,k}`: consumed characters and rest. -/
def coreMore : Nat → List Char → List Char × List Char
  | 0, cs => ([], cs)
  | k + 1, cs =>
    match cs with
    | '.' :: rest =>
      match takeDigits rest with
      | ([], _) => ([], cs)
      | (ds, rest2) =>
        let (m, r) := coreMore k rest2
        ('.' :: (ds ++ m), r)
    | _ => ([], cs)

/-- Greedy `(?:(?:\.\*)|(?:\.\d+))?` (the `\.\*` branch is tried first). -/
def coreFin : List Char → List Char × List Char
  | '.' :: '*' :: r => (['.', '*'], r)
  | '.' :: rest =>
    match takeDigits rest with
    | ([], _) => ([], '.' :: rest)
    | (ds, r) => ('.' :: ds, r)
  | cs => ([], cs)

/-- Greedy optional suffix group at the given position (trailing input is
ignored, as `re.match` only anchors the start). -/
def sfxAt : List Char → Option (List Char)
  | [] => none
  | c :: rest =>
    if c.isAlpha then some [c]
    else if c = '*' then some ['*']
    else if isDelim c then
      match rest.takeWhile suffixChar with
      | [] =>
        match rest with
        | '*' :: _ => some [c, '*']
        | _ => none
      | run => some (c :: run)
    else none

/-- Build a `String` back from characters. -/
def mkStr (cs : List Char) : String := ⟨cs⟩

/-- Function `VersionCheck._split_suffix`: `(match.group(1), match.group(2))` of
`re.match(_PATTERN, v)`, or `none` when the match fails (in which case the
Python callers raise `AttributeError`). -/
def split_suffix (v : String) : Option (String × Option String) :=
  match takeDigits v.data with
  | ([], _) => none
  | (ds, rest) =>
    let (m1, r1) := coreMore 2 rest
    let (m2, r2) := coreFin r1
    some (mkStr (ds ++ m1 ++ m2), (sfxAt r2).map mkStr)

/-! Section: `_execute_comparison` and the numeric loop of `_custom_compare` -/

/-- Constant `VersionCheck._SUPPORTED_COMPARISONS`. -/
def SUPPORTED_COMPARISONS : List String := ["<", "<=", "==", ">=", ">"]

/-- Function `VersionCheck._execute_comparison` applied to two values of a totally
ordered Python type whose comparison outcome is `c` (version objects, suffix
strings, or whole version strings in the lexicographic fallback). -/
def execute_comparison (c : Ordering) (op : String) : Except PyErr Bool :=
  if !(SUPPORTED_COMPARISONS.contains op) then .error .unsupportedComparison
  else if op == "<" then .ok (c == .lt)
  else if op == "<=" then .ok (!(c == .gt))
  else if op == "==" then .ok (c == .eq)
  else if op == ">=" then .ok (!(c == .lt))
  else .ok (c == .gt)

/-- Python `[int(x) for x in v.split(".")]`: `some` when every dot-group is a
nonempty digit run.  On outputs of `_split_suffix` the only other shapes are
a `*` group or an empty group, on which Python's `int` raises. -/
def parseParts (v : String) : Option (List Nat) :=
  let gs := splitDots v.data
  if gs.all digitsGroup then some (gs.map digitsToNat) else none

/-- Tail of the component-wise loop of `_custom_compare` once the left list
is exhausted (its missing components count as `0`). -/
def partsCmpNil : List Nat → Ordering
  | [] => .eq
  | y :: ys => (natCmp 0 y).then (partsCmpNil ys)

/-- The component-wise loop of `_custom_compare`: missing components count as
`0` and the first unequal pair decides. -/
def partsCmp : List Nat → List Nat → Ordering
  | [], ys => partsCmpNil ys
  | x :: xs, [] => (natCmp x 0).then (partsCmp xs [])
  | x :: xs, y :: ys => (natCmp x y).then (partsCmp xs ys)

/-- Function `VersionCheck._custom_compare`.  The `try` block catches both `int()`
failures and the unsupported-operator error of the suffix comparison; the
`except` handler then runs the lexicographic comparison on the raw inputs
(re-raising on an unsupported operator). -/
def custom_compare (v1_in op v2_in : String) : Except PyErr Bool :=
  match split_suffix v1_in, split_suffix v2_in with
  | some (v1, s1), some (v2, s2) =>
    (match parseParts v1, parseParts v2 with
     | some p1, some p2 =>
       match partsCmp p1 p2 with
       | .lt => .ok (["<", "<="].contains op)
       | .gt => .ok ([">", ">="].contains op)
       | .eq =>
         match s1, s2 with
         | none, none => .ok (["==", "<=", ">="].contains op)
         | none, some _ => .ok (["<", "<="].contains op)
         | some _, none => .ok ([">", ">="].contains op)
         | some x, some y =>
           match execute_comparison (strCmp x y) op with
           | .ok r => .ok r
           | .error _ => execute_comparison (strCmp v1_in v2_in) op
     | _, _ => execute_comparison (strCmp v1_in v2_in) op)
  | _, _ => .error .attributeError

/-! Section: The `packaging.version` standard path

The source guards with `re.match(f"^{version.VERSION_PATTERN}$", v,
re.IGNORECASE | re.VERBOSE)` and then calls `version.parse`; on such strings
`parse` builds a `Version` whose comparisons use the `_cmpkey` sorting key.
The key components below mirror `_cmpkey`: trailing-zero-trimmed release,
pre / post / dev markers with the `Infinity` / `NegativeInfinity` sentinels,
and the parsed local segments.  The grammar (after `re.IGNORECASE` lowering)
is `v? (epoch!)? release pre? post? dev? (+local)?` and is unambiguous
enough that the backtracking `re` engine is equivalent to the greedy parser
below (each letter tag is matched by the longest alternative that fits, and
an optional `[-_\.]` separator is consumed greedily). -/

/-- Pre-release field of a `_cmpkey`. -/
inductive PreK where
  | negInf
  | val (l : String) (n : Nat)
  | inf
deriving DecidableEq, Repr

/-- Post-release field of a `_cmpkey` (`("post", n)` or `NegativeInfinity`). -/
inductive PostK where
  | negInf
  | val (n : Nat)
deriving DecidableEq, Repr

/-- Dev-release field of a `_cmpkey` (`("dev", n)` or `Infinity`). -/
inductive DevK where
  | val (n : Nat)
  | inf
deriving DecidableEq, Repr

/-- One segment of a local version: numeric segments become `(n, "")`,
alphanumeric ones `(NegativeInfinity, s)`. -/
inductive LSeg where
  | num (n : Nat)
  | str (s : String)
deriving DecidableEq, Repr

/-- Local field of a `_cmpkey`. -/
inductive LocalK where
  | negInf
  | segs (l : List LSeg)
deriving DecidableEq, Repr

/-- The `_cmpkey` sorting key of a parsed `packaging.version.Version`. -/
structure VKey where
  epoch : Nat
  release : List Nat
  pre : PreK
  post : PostK
  dev : DevK
  loc : LocalK
deriving DecidableEq, Repr

/-- Ordering of pre-release fields (`NegativeInfinity < tuples < Infinity`,
tuples comparing as Python tuples). -/
def preCmp : PreK → PreK → Ordering
  | .negInf, .negInf => .eq
  | .negInf, _ => .lt
  | _, .negInf => .gt
  | .inf, .inf => .eq
  | .inf, _ => .gt
  | _, .inf => .lt
  | .val l1 n1, .val l2 n2 => (strCmp l1 l2).then (natCmp n1 n2)

/-- Ordering of post-release fields. -/
def postCmp : PostK → PostK → Ordering
  | .negInf, .negInf => .eq
  | .negInf, _ => .lt
  | _, .negInf => .gt
  | .val n1, .val n2 => natCmp n1 n2

/-- Ordering of dev-release fields. -/
def devCmp : DevK → DevK → Ordering
  | .inf, .inf => .eq
  | .inf, _ => .gt
  | _, .inf => .lt
  | .val n1, .val n2 => natCmp n1 n2

/-- Ordering of local segments: `(n, "")` tuples sort above
`(NegativeInfinity, s)` tuples. -/
def segCmp : LSeg → LSeg → Ordering
  | .num a, .num b => natCmp a b
  | .num _, .str _ => .gt
  | .str _, .num _ => .lt
  | .str a, .str b => strCmp a b

/-- Ordering of local fields. -/
def localCmp : LocalK → LocalK → Ordering
  | .negInf, .negInf => .eq
  | .negInf, _ => .lt
  | _, .negInf => .gt
  | .segs a, .segs b => lexCmp segCmp a b

/-- Python's tuple comparison of two `_cmpkey`s. -/
def keyCmp (a b : VKey) : Ordering :=
  (natCmp a.epoch b.epoch).then
    ((lexCmp natCmp a.release b.release).then
      ((preCmp a.pre b.pre).then
        ((postCmp a.post b.post).then
          ((devCmp a.dev b.dev).then (localCmp a.loc b.loc)))))

/-- Lowercasing of `re.IGNORECASE`, on the ASCII range.  Every string the
engine sends to the standard path has passed the ASCII-only `_PATTERN` (or
its wildcard normalization), so ASCII case folding is the behaviour
exercised. -/
def lowerChar (c : Char) : Char :=
  if 65 ≤ c.toNat ∧ c.toNat ≤ 90 then Char.ofNat (c.toNat + 32) else c

/-- Separator characters `[-_\.]`. -/
def isSepChar (c : Char) : Bool :=
  c == '-' || c == '_' || c == '.'

/-- Consume one optional separator. -/
def skipSep : List Char → List Char
  | [] => []
  | c :: cs => if isSepChar c then cs else c :: cs

/-- First tag of the list that is a prefix of the input (tags listed longest
first, matching the regex alternation with backtracking). -/
def munch : List String → List Char → Option (String × List Char)
  | [], _ => none
  | t :: ts, cs =>
    if t.data.isPrefixOf cs then some (t, cs.drop t.data.length)
    else munch ts cs

/-- Group `[-_\.]? tag [-_\.]? [0-9]*`, rolled back entirely when no tag matches;
a missing number counts as `0` (`_parse_letter_version`). -/
def tryTagNum (tags : List String) (cs : List Char) :
    Option (String × Nat × List Char) :=
  match munch tags (skipSep cs) with
  | none => none
  | some (tag, r) =>
    let (ds, r2) := takeDigits (skipSep r)
    some (tag, digitsToNat ds, r2)

/-- Pre-release alternatives `(a|b|c|rc|alpha|beta|pre|preview)`, longest
first. -/
def preTags : List String :=
  ["preview", "alpha", "beta", "pre", "rc", "a", "b", "c"]

/-- Letter normalization of `_parse_letter_version` for pre-releases. -/
def normPre (l : String) : String :=
  if l == "alpha" then "a"
  else if l == "beta" then "b"
  else if l == "c" || l == "pre" || l == "preview" then "rc"
  else l

/-- The post-release group: `(?:-(?P<post_n1>[0-9]+))` is tried first, then
`[-_\.]?(post|rev|r)[-_\.]?([0-9]+)?`. -/
def tryPost (cs : List Char) : Option (Nat × List Char) :=
  match cs with
  | '-' :: rest =>
    match takeDigits rest with
    | ([], _) => (tryTagNum ["post", "rev", "r"] cs).map fun x => (x.2.1, x.2.2)
    | (ds, r) => some (digitsToNat ds, r)
  | _ => (tryTagNum ["post", "rev", "r"] cs).map fun x => (x.2.1, x.2.2)

/-- Greedy `(?:\.[0-9]+)*` of the release segment. -/
def relMore : Nat → List Char → List Nat × List Char
  | 0, cs => ([], cs)
  | fuel + 1, '.' :: rest =>
    (match takeDigits rest with
     | ([], _) => ([], '.' :: rest)
     | (ds, r) =>
       let (ns, r2) := relMore fuel r
       (digitsToNat ds :: ns, r2))
  | _ + 1, cs => ([], cs)

/-- Class `[a-z0-9]` (the input is already lowercased). -/
def localChar (c : Char) : Bool :=
  c.isDigit || c.isLower

/-- Function `_parse_local_version` on one segment: numeric segments become integers,
others stay strings. -/
def mkSeg (cs : List Char) : LSeg :=
  if cs.all (·.isDigit) then .num (digitsToNat cs) else .str (mkStr cs)

/-- Greedy `(?:[-_\.][a-z0-9]+)*` of the local segment. -/
def localMore : Nat → List Char → List LSeg × List Char
  | 0, cs => ([], cs)
  | _ + 1, [] => ([], [])
  | fuel + 1, c :: rest =>
    if isSepChar c then
      match rest.takeWhile localChar with
      | [] => ([], c :: rest)
      | sg =>
        let (more, r) := localMore fuel (rest.drop sg.length)
        (mkSeg sg :: more, r)
    else ([], c :: rest)

/-- Function `packaging.version._cmpkey`. -/
def mkKey (epoch : Nat) (release : List Nat) (pre : Option (String × Nat))
    (post : Option Nat) (dev : Option Nat) (loc : Option (List LSeg)) : VKey :=
  { epoch := epoch
    release := (release.reverse.dropWhile (· == 0)).reverse
    pre :=
      match pre, post, dev with
      | none, none, some _ => .negInf
      | none, _, _ => .inf
      | some (l, n), _, _ => .val l n
    post := match post with | none => PostK.negInf | some n => PostK.val n
    dev := match dev with | none => DevK.inf | some n => DevK.val n
    loc := match loc with | none => LocalK.negInf | some l => LocalK.segs l }

/-- The anchored `re.match(f"^{version.VERSION_PATTERN}$", s, re.IGNORECASE |
re.VERBOSE)` followed by `version.parse`: the `_cmpkey` of the parsed
version, or `none` when the strict grammar does not cover the whole string. -/
def parseVersion (s : String) : Option VKey :=
  let cs0 := s.data.map lowerChar
  let cs1 := match cs0 with
    | 'v' :: r => r
    | _ => cs0
  let (epoch, cs2) :=
    match takeDigits cs1 with
    | ([], _) => (0, cs1)
    | (ds, rest) =>
      match rest with
      | '!' :: r => (digitsToNat ds, r)
      | _ => (0, cs1)
  match takeDigits cs2 with
  | ([], _) => none
  | (ds, rest) =>
    let (more, rest2) := relMore rest.length rest
    let release := digitsToNat ds :: more
    let (pre, rest3) :=
      match tryTagNum preTags rest2 with
      | some (t, n, r) => (some (normPre t, n), r)
      | none => (none, rest2)
    let (post, rest4) :=
      match tryPost rest3 with
      | some (n, r) => (some n, r)
      | none => (none, rest3)
    let (dev, rest5) :=
      match tryTagNum ["dev"] rest4 with
      | some (_, n, r) => (some n, r)
      | none => (none, rest4)
    match rest5 with
    | [] => some (mkKey epoch release pre post dev none)
    | '+' :: r =>
      (match r.takeWhile localChar with
       | [] => none
       | sg =>
         let (segs, r2) := localMore (r.drop sg.length).length (r.drop sg.length)
         if r2.isEmpty then
           some (mkKey epoch release pre post dev (some (mkSeg sg :: segs)))
         else none)
    | _ => none

/-! Section: Wildcard normalization and `compare` -/

/-- Python `"*" in s` for the single-character needle. -/
def hasStar (s : String) : Bool := s.data.contains '*'

/-- Python `re.sub(r"\*", "0", s)`; the source's guarding `if "*" in v:` only skips a
substitution that would be the identity anyway. -/
def replaceStar (s : String) : String :=
  mkStr (s.data.map fun c => if c = '*' then '0' else c)

/-- Python `s and "*" in s` for an optional suffix group (the group, when present,
is never empty, so truthiness is presence). -/
def optHasStar : Option String → Bool
  | none => false
  | some s => hasStar s

/-- Python f-string interpolation of `v` and an optional group `s`: an
f-string renders `None` as the literal text `"None"`. -/
def fstr (v : String) (s : Option String) : String :=
  match s with
  | none => v ++ "None"
  | some t => v ++ t

/-- Function `VersionCheck._normalize_wildcard` (an `AttributeError` from
`_split_suffix` propagates). -/
def normalize_wildcard (v1_in v2_in : String) : Except PyErr (String × String) :=
  match split_suffix v1_in, split_suffix v2_in with
  | some (v1, s1), some (v2, s2) =>
    let v1n := replaceStar v1
    let v2n := replaceStar v2
    let ss : Option String × Option String :=
      if optHasStar s1 || optHasStar s2 then (none, none) else (s1, s2)
    .ok (fstr v1n ss.1, fstr v2n ss.2)
  | _, _ => .error .attributeError

/-- Function `VersionCheck.compare`. -/
def compare (v1_in op v2_in : String) : Except PyErr Bool :=
  if !(is_valid v1_in) || !(is_valid v2_in) then .ok false
  else
    match (if hasStar v1_in || hasStar v2_in
           then normalize_wildcard v1_in v2_in
           else .ok (v1_in, v2_in)) with
    | .error e => .error e
    | .ok (a, b) =>
      match parseVersion a, parseVersion b with
      | some k1, some k2 => execute_comparison (keyCmp k1 k2) op
      | _, _ => custom_compare a op b

/-! Section: Extraction -/

/-- Shape of an `_EXTRACTION_PATTERNS` suffix: a delimited tail, a single
letter, or no suffix group at all. -/
inductive SfxKind where
  | delim
  | letter
  | plain
deriving DecidableEq, Repr

/-- Constant `VersionCheck._EXTRACTION_PATTERNS`: the arity (count of dot-separated
digit groups) and suffix shape of each pattern, in source order. -/
def EXTRACTION_PATTERNS : List (Nat × SfxKind) :=
  [(4, .delim), (3, .delim), (2, .delim), (1, .delim),
   (4, .letter), (3, .letter), (2, .letter), (1, .letter),
   (4, .plain), (3, .plain), (2, .plain), (1, .plain)]

/-- Exactly `k` repetitions of `\.\d+`. -/
def coreReps : Nat → List Char → Option (List Char × List Char)
  | 0, cs => some ([], cs)
  | k + 1, '.' :: rest =>
    (match takeDigits rest with
     | ([], _) => none
     | (ds, r) => (coreReps k r).map fun x => ('.' :: (ds ++ x.1), x.2))
  | _ + 1, _ => none

/-- Core `\d+(?:\.\d+){n-1}` at the head of the input. -/
def coreExact (n : Nat) (cs : List Char) : Option (List Char × List Char) :=
  match takeDigits cs with
  | ([], _) => none
  | (ds, rest) => (coreReps (n - 1) rest).map fun x => (ds ++ x.1, x.2)

/-- The suffix group of an extraction pattern (note: no `*` alternative in
extraction patterns). -/
def sfxExact : SfxKind → List Char → Option (Option (List Char) × List Char)
  | .plain, cs => some (none, cs)
  | .letter, [] => none
  | .letter, c :: cs => if c.isAlpha then some (some [c], cs) else none
  | .delim, [] => none
  | .delim, c :: cs =>
    if isDelim c then
      match cs.takeWhile suffixChar with
      | [] => none
      | run => some (some (c :: run), cs.drop run.length)
    else none

/-- One attempted match of an extraction pattern at the current position: the
`re.findall` element (the single group, or the tuple of both groups) and the
number of characters consumed. -/
def matchAt (p : Nat × SfxKind) (cs : List Char) : Option (PyVal × Nat) :=
  match coreExact p.1 cs with
  | none => none
  | some (g1, rest) =>
    match sfxExact p.2 rest with
    | none => none
    | some (g2, rest2) =>
      let val := match g2 with
        | none => PyVal.str (mkStr g1)
        | some t => PyVal.tuple [mkStr g1, mkStr t]
      some (val, cs.length - rest2.length)

/-- Left-to-right non-overlapping scan of `re.findall`. -/
def findallAux (p : Nat × SfxKind) : Nat → List Char → List PyVal
  | 0, _ => []
  | _ + 1, [] => []
  | fuel + 1, c :: rest =>
    match matchAt p (c :: rest) with
    | some (v, len) => v :: findallAux p fuel ((c :: rest).drop len)
    | none => findallAux p fuel rest

/-- Python `re.findall(pattern, s)` for an extraction pattern. -/
def findall (p : Nat × SfxKind) (s : String) : List PyVal :=
  findallAux p s.data.length s.data

/-- The loop of `VersionCheck.find_higher`, accumulating in `v` (initially
the `"0"` sentinel). -/
def findHigherGo : String → List PyVal → Except PyErr (Option String)
  | v, [] => .ok (if v == "0" then none else some v)
  | v, ver :: rest =>
    match ver with
    | .tuple _ => .error .typeError
    | .str s =>
      if !(is_valid s) then findHigherGo v rest
      else
        match compare s ">" v with
        | .error e => .error e
        | .ok true => findHigherGo s rest
        | .ok false => findHigherGo v rest

/-- Function `VersionCheck.find_higher`.  `is_valid` applied to a tuple element means
`re.match` receives a tuple and raises `TypeError`. -/
def find_higher (versions : List PyVal) : Except PyErr (Option String) :=
  findHigherGo "0" versions

/-- The pattern loop of `VersionCheck.extract`. -/
def extractGo : List (Nat × SfxKind) → String → Except PyErr (Option String)
  | [], _ => .ok none
  | p :: ps, s =>
    match find_higher (findall p s) with
    | .error e => .error e
    | .ok (some v) => .ok (some v)
    | .ok none => extractGo ps s

/-- Function `VersionCheck.extract`. -/
def extract (s : String) : Except PyErr (Option String) :=
  extractGo EXTRACTION_PATTERNS s

/-! Section: Range containment -/

/-- Python truthiness of an optional string argument (`None` and `""` are
falsy). -/
def optTruthy : Option String → Bool
  | none => false
  | some s => !(s == "")

/-- Python `b and not VersionCheck.compare(v, op, b)` for one bound `b`. -/
def boundFails (v : String) (b : Option String) (op : String) :
    Except PyErr Bool :=
  match b with
  | none => .ok false
  | some s =>
    if s == "" then .ok false
    else
      match compare v op s with
      | .error e => .error e
      | .ok r => .ok (!r)

/-- Function `VersionCheck.is_covered`; the `except` clause re-raises any internal
error wrapped with context. -/
def is_covered (v_in : String) (min max : Option String) (including : Bool) :
    Except PyErr Bool :=
  if !(optTruthy min) && !(optTruthy max) then .ok true
  else
    let inner : Except PyErr Bool :=
      match boundFails v_in min (if including then ">=" else ">") with
      | .error e => .error e
      | .ok true => .ok false
      | .ok false =>
        match boundFails v_in max (if including then "<=" else "<") with
        | .error e => .error e
        | .ok true => .ok false
        | .ok false => .ok true
    match inner with
    | .error e => .error (PyErr.wrapped e)
    | .ok r => .ok r

/-! Section: The zero sentinel of `find_higher` -/

/-- Hypothesis shape of the zero-sentinel property: a `findall` element is a
plain string which, when it passes `is_valid`, compares equal to `"0"` under
the engine's ordering. -/
def zeroMatch (m : PyVal) : Bool :=
  match m with
  | .str s =>
    !(is_valid s) ||
      (match compare s "==" "0" with
       | .ok true => true
       | _ => false)
  | .tuple _ => false

/-! Section: Specification-side custom comparator -/

/-- Operators that hold for a strictly smaller left operand. -/
def ltFamily : List String := ["<", "<="]

/-- Operators that hold for a strictly greater left operand. -/
def gtFamily : List String := [">", ">="]

/-- Operators that hold for fully equal operands. -/
def eqFamily : List String := ["==", "<=", ">="]

/-- Zero-pad a numeric component list on the right to length `n`. -/
def padTo (n : Nat) (l : List Nat) : List Nat :=
  l ++ List.replicate (n - l.length) 0

/-- First unequal component pair, scanning left to right. -/
def firstUnequal (l : List (Nat × Nat)) : Option (Nat × Nat) :=
  l.find? fun p => !(p.1 == p.2)

/-- Modelled from the spec (§4.4), with the presence rule amended to match
the code: zero-pad the shorter numeric sequence on the right and compare
component-wise left to right, the first unequal pair deciding via the
operator's `<` or `>` family; with fully equal numeric parts a token with a
suffix is greater than the same numeric prefix without one, and two
suffixes compare lexicographically under the same operator; a numeric-parse
failure falls back to plain lexicographic comparison of the raw inputs. -/
def spec_custom_compare (a op b : String) : Except PyErr Bool :=
  match split_suffix a, split_suffix b with
  | some (v1, s1), some (v2, s2) =>
    (match parseParts v1, parseParts v2 with
     | some p1, some p2 =>
       (match firstUnequal ((padTo (max p1.length p2.length) p1).zip
                            (padTo (max p1.length p2.length) p2)) with
        | some (x, y) =>
          if x < y then .ok (ltFamily.contains op)
          else .ok (gtFamily.contains op)
        | none =>
          match s1, s2 with
          | none, none => .ok (eqFamily.contains op)
          | none, some _ => .ok (ltFamily.contains op)
          | some _, none => .ok (gtFamily.contains op)
          | some x, some y =>
            match execute_comparison (strCmp x y) op with
            | .ok r => .ok r
            | .error _ => execute_comparison (strCmp a b) op)
     | _, _ => execute_comparison (strCmp a b) op)
  | _, _ => .error .attributeError

/-! Section: Properties -/

theorem natCmp_refl (a : Nat) : natCmp a a = .eq := by
  simp [natCmp]

theorem natCmp_swap (a b : Nat) : natCmp b a = (natCmp a b).swap := by
  unfold natCmp
  rcases Nat.lt_trichotomy a b with h | h | h
  · simp [h, Nat.not_lt.mpr (Nat.le_of_lt h), Nat.ne_of_gt h, Ordering.swap]
  · simp [h, Ordering.swap]
  · simp [h, Nat.not_lt.mpr (Nat.le_of_lt h), Nat.ne_of_gt h, Ordering.swap]

theorem charCmp_swap (a b : Char) : charCmp b a = (charCmp a b).swap :=
  natCmp_swap a.toNat b.toNat

theorem lexCmp_swap (f : α → α → Ordering)
    (hf : ∀ a b, f b a = (f a b).swap) :
    ∀ xs ys, lexCmp f ys xs = (lexCmp f xs ys).swap := by
  intro xs
  induction xs with
  | nil => intro ys; cases ys <;> rfl
  | cons a as ih =>
    intro ys
    cases ys with
    | nil => rfl
    | cons b bs =>
      simp only [lexCmp, hf a b, ih bs, Ordering.swap_then]

theorem strCmp_swap (a b : String) : strCmp b a = (strCmp a b).swap :=
  lexCmp_swap charCmp charCmp_swap a.data b.data

theorem lexCmp_refl (f : α → α → Ordering)
    (hf : ∀ a, f a a = .eq) : ∀ xs, lexCmp f xs xs = .eq := by
  intro xs
  induction xs with
  | nil => rfl
  | cons a as ih => simp [lexCmp, hf a, ih, Ordering.then]

theorem strCmp_refl (a : String) : strCmp a a = .eq :=
  lexCmp_refl charCmp (fun c => natCmp_refl c.toNat) a.data

/-! Section: Symmetry of the comparison orderings -/

theorem preCmp_swap (a b : PreK) : preCmp b a = (preCmp a b).swap := by
  cases a <;> cases b <;>
    simp only [preCmp, Ordering.swap_then, ← strCmp_swap, ← natCmp_swap] <;> rfl

theorem postCmp_swap (a b : PostK) : postCmp b a = (postCmp a b).swap := by
  cases a <;> cases b <;>
    simp only [postCmp, ← natCmp_swap] <;> rfl

theorem devCmp_swap (a b : DevK) : devCmp b a = (devCmp a b).swap := by
  cases a <;> cases b <;>
    simp only [devCmp, ← natCmp_swap] <;> rfl

theorem segCmp_swap (a b : LSeg) : segCmp b a = (segCmp a b).swap := by
  cases a <;> cases b <;>
    simp only [segCmp, ← natCmp_swap, ← strCmp_swap] <;> rfl

theorem localCmp_swap (a b : LocalK) : localCmp b a = (localCmp a b).swap := by
  cases a <;> cases b <;>
    simp only [localCmp, ← lexCmp_swap segCmp segCmp_swap] <;> rfl

theorem keyCmp_swap (a b : VKey) : keyCmp b a = (keyCmp a b).swap := by
  unfold keyCmp
  simp only [Ordering.swap_then, ← natCmp_swap, ← lexCmp_swap natCmp natCmp_swap,
    ← preCmp_swap, ← postCmp_swap, ← devCmp_swap, ← localCmp_swap]

theorem partsCmp_nil_swap : ∀ ys, partsCmp ys [] = (partsCmpNil ys).swap := by
  intro ys
  induction ys with
  | nil => rfl
  | cons y t ih =>
    simp only [partsCmp, partsCmpNil, Ordering.swap_then, ← natCmp_swap, ← ih]

theorem partsCmp_swap : ∀ xs ys, partsCmp ys xs = (partsCmp xs ys).swap := by
  intro xs
  induction xs with
  | nil =>
    intro ys
    exact partsCmp_nil_swap ys
  | cons x t ih =>
    intro ys
    cases ys with
    | nil =>
      show partsCmpNil (x :: t) = (partsCmp (x :: t) []).swap
      rw [partsCmp_nil_swap, Ordering.swap_swap]
    | cons y u =>
      simp only [partsCmp, Ordering.swap_then, ← natCmp_swap, ← ih u]

theorem exec_lt_swap (c : Ordering) :
    execute_comparison c "<" = execute_comparison c.swap ">" := by
  cases c <;> rfl

theorem exec_lt_run (c : Ordering) :
    execute_comparison c "<" = .ok (c == .lt) := rfl

theorem exec_le_run (c : Ordering) :
    execute_comparison c "<=" = .ok (!(c == .gt)) := rfl

theorem exec_eq_run (c : Ordering) :
    execute_comparison c "==" = .ok (c == .eq) := rfl

theorem exec_ge_run (c : Ordering) :
    execute_comparison c ">=" = .ok (!(c == .lt)) := rfl

theorem exec_gt_run (c : Ordering) :
    execute_comparison c ">" = .ok (c == .gt) := rfl

theorem custom_compare_lt_gt (a b : String) :
    custom_compare a "<" b = custom_compare b ">" a := by
  cases hsa : split_suffix a with
  | none => cases hsb : split_suffix b <;> simp [custom_compare, hsa, hsb]
  | some p1 =>
    cases hsb : split_suffix b with
    | none => simp [custom_compare, hsa, hsb]
    | some p2 =>
      obtain ⟨v1, s1⟩ := p1
      obtain ⟨v2, s2⟩ := p2
      simp only [custom_compare, hsa, hsb]
      cases hp1 : parseParts v1 with
      | none =>
        cases hp2 : parseParts v2 <;>
          · show execute_comparison (strCmp a b) "<" =
              execute_comparison (strCmp b a) ">"
            rw [strCmp_swap a b, ← exec_lt_swap]
      | some l1 =>
        cases hp2 : parseParts v2 with
        | none =>
          show execute_comparison (strCmp a b) "<" =
            execute_comparison (strCmp b a) ">"
          rw [strCmp_swap a b, ← exec_lt_swap]
        | some l2 =>
          clear hsa hsb hp1 hp2
          show (match partsCmp l1 l2 with
                | Ordering.lt => Except.ok (["<", "<="].contains "<")
                | Ordering.gt => Except.ok ([">", ">="].contains "<")
                | Ordering.eq =>
                  match s1, s2 with
                  | none, none => Except.ok (["==", "<=", ">="].contains "<")
                  | none, some _ => Except.ok (["<", "<="].contains "<")
                  | some _, none => Except.ok ([">", ">="].contains "<")
                  | some x, some y =>
                    match execute_comparison (strCmp x y) "<" with
                    | .ok r => Except.ok r
                    | .error _ => execute_comparison (strCmp a b) "<") =
               (match partsCmp l2 l1 with
                | Ordering.lt => Except.ok (["<", "<="].contains ">")
                | Ordering.gt => Except.ok ([">", ">="].contains ">")
                | Ordering.eq =>
                  match s2, s1 with
                  | none, none => Except.ok (["==", "<=", ">="].contains ">")
                  | none, some _ => Except.ok (["<", "<="].contains ">")
                  | some _, none => Except.ok ([">", ">="].contains ">")
                  | some x, some y =>
                    match execute_comparison (strCmp x y) ">" with
                    | .ok r => Except.ok r
                    | .error _ => execute_comparison (strCmp b a) ">")
          rw [partsCmp_swap l1 l2]
          cases partsCmp l1 l2 with
          | lt => rfl
          | gt => rfl
          | eq =>
            cases s1 with
            | none => cases s2 <;> rfl
            | some x =>
              cases s2 with
              | none => rfl
              | some y =>
                show (match execute_comparison (strCmp x y) "<" with
                      | .ok r => Except.ok r
                      | .error _ => execute_comparison (strCmp a b) "<") =
                     (match execute_comparison (strCmp y x) ">" with
                      | .ok r => Except.ok r
                      | .error _ => execute_comparison (strCmp b a) ">")
                rw [exec_lt_run, exec_gt_run, strCmp_swap x y]
                cases strCmp x y <;> rfl

theorem normalize_swap (a b : String) :
    normalize_wildcard b a = (normalize_wildcard a b).map fun p => (p.2, p.1) := by
  cases hsa : split_suffix a with
  | none => cases hsb : split_suffix b <;> simp [normalize_wildcard, hsa, hsb, Except.map]
  | some p1 =>
    cases hsb : split_suffix b with
    | none => simp [normalize_wildcard, hsa, hsb, Except.map]
    | some p2 =>
      obtain ⟨v1, s1⟩ := p1
      obtain ⟨v2, s2⟩ := p2
      simp only [normalize_wildcard, hsa, hsb, Except.map]
      rw [Bool.or_comm (optHasStar s2) (optHasStar s1)]
      cases optHasStar s1 || optHasStar s2 <;> rfl

theorem compare_lt_gt (a b : String) : compare a "<" b = compare b ">" a := by
  unfold compare
  cases ha : is_valid a with
  | false => cases hb : is_valid b <;> simp [ha, hb]
  | true =>
    cases hb : is_valid b with
    | false => simp [ha, hb]
    | true =>
      simp only [ha, hb, Bool.not_true, Bool.or_self, if_false]
      rw [Bool.or_comm (hasStar b) (hasStar a)]
      cases hst : hasStar a || hasStar b with
      | false =>
        simp only [Bool.false_eq_true, if_false]
        cases hx : parseVersion a with
        | none =>
          cases hy : parseVersion b <;> exact custom_compare_lt_gt a b
        | some k1 =>
          cases hy : parseVersion b with
          | none => exact custom_compare_lt_gt a b
          | some k2 =>
            show execute_comparison (keyCmp k1 k2) "<" =
              execute_comparison (keyCmp k2 k1) ">"
            rw [keyCmp_swap k1 k2, ← exec_lt_swap]
      | true =>
        simp only [if_true]
        cases hn : normalize_wildcard a b with
        | error e =>
          rw [normalize_swap a b, hn]
          rfl
        | ok p =>
          obtain ⟨x, y⟩ := p
          rw [normalize_swap a b, hn]
          show (match parseVersion x, parseVersion y with
                | some k1, some k2 => execute_comparison (keyCmp k1 k2) "<"
                | _, _ => custom_compare x "<" y) =
               (match parseVersion y, parseVersion x with
                | some k1, some k2 => execute_comparison (keyCmp k1 k2) ">"
                | _, _ => custom_compare y ">" x)
          cases hx : parseVersion x with
          | none =>
            cases hy : parseVersion y <;> exact custom_compare_lt_gt x y
          | some k1 =>
            cases hy : parseVersion y with
            | none => exact custom_compare_lt_gt x y
            | some k2 =>
              show execute_comparison (keyCmp k1 k2) "<" =
                execute_comparison (keyCmp k2 k1) ">"
              rw [keyCmp_swap k1 k2, ← exec_lt_swap]

/-! Section: A value that compares equal never compares strictly greater -/

theorem ok_false_ne_true
    (h : (Except.ok false : Except PyErr Bool) = .ok true) : False := by
  injection h with h'
  exact Bool.noConfusion h'

theorem exec_eq_then_gt (c : Ordering) (h : execute_comparison c "==" = .ok true) :
    execute_comparison c ">" = .ok false := by
  rw [exec_eq_run] at h
  rw [exec_gt_run]
  cases c with
  | lt => exact (ok_false_ne_true h).elim
  | eq => rfl
  | gt => exact (ok_false_ne_true h).elim

theorem custom_eq_imp_not_gt (a b : String)
    (h : custom_compare a "==" b = .ok true) :
    custom_compare a ">" b = .ok false := by
  cases hsa : split_suffix a with
  | none => simp [custom_compare, hsa] at h
  | some p1 =>
    cases hsb : split_suffix b with
    | none => simp [custom_compare, hsa, hsb] at h
    | some p2 =>
      obtain ⟨v1, s1⟩ := p1
      obtain ⟨v2, s2⟩ := p2
      simp only [custom_compare, hsa, hsb] at h ⊢
      clear hsa hsb
      cases hp1 : parseParts v1 <;> rw [hp1] at h
      case none =>
        cases hp2 : parseParts v2 <;> rw [hp2] at h <;>
          exact exec_eq_then_gt _ h
      case some l1 =>
        cases hp2 : parseParts v2 <;> rw [hp2] at h
        case none => exact exec_eq_then_gt _ h
        case some l2 =>
          clear hp1 hp2
          replace h :
              (match partsCmp l1 l2 with
               | Ordering.lt => Except.ok (["<", "<="].contains "==")
               | Ordering.gt => Except.ok ([">", ">="].contains "==")
               | Ordering.eq =>
                 match s1, s2 with
                 | none, none => Except.ok (["==", "<=", ">="].contains "==")
                 | none, some _ => Except.ok (["<", "<="].contains "==")
                 | some _, none => Except.ok ([">", ">="].contains "==")
                 | some x, some y =>
                   match execute_comparison (strCmp x y) "==" with
                   | .ok r => Except.ok r
                   | .error _ => execute_comparison (strCmp a b) "==") =
                Except.ok true := h
          show (match partsCmp l1 l2 with
               | Ordering.lt => Except.ok (["<", "<="].contains ">")
               | Ordering.gt => Except.ok ([">", ">="].contains ">")
               | Ordering.eq =>
                 match s1, s2 with
                 | none, none => Except.ok (["==", "<=", ">="].contains ">")
                 | none, some _ => Except.ok (["<", "<="].contains ">")
                 | some _, none => Except.ok ([">", ">="].contains ">")
                 | some x, some y =>
                   match execute_comparison (strCmp x y) ">" with
                   | .ok r => Except.ok r
                   | .error _ => execute_comparison (strCmp a b) ">") =
              Except.ok false
          cases hpc : partsCmp l1 l2 <;> rw [hpc] at h
          case lt => exact (ok_false_ne_true h).elim
          case gt => exact (ok_false_ne_true h).elim
          case eq =>
            cases s1 with
            | none =>
              cases s2 with
              | none => rfl
              | some y => exact (ok_false_ne_true h).elim
            | some x =>
              cases s2 with
              | none => exact (ok_false_ne_true h).elim
              | some y =>
                replace h : Except.ok (strCmp x y == Ordering.eq) =
                    Except.ok true := h
                show Except.ok (strCmp x y == Ordering.gt) = Except.ok false
                cases hsc : strCmp x y <;> rw [hsc] at h
                case lt => exact (ok_false_ne_true h).elim
                case eq => rfl
                case gt => exact (ok_false_ne_true h).elim

theorem compare_eq_imp_not_gt (a b : String)
    (h : compare a "==" b = .ok true) : compare a ">" b = .ok false := by
  unfold compare at h ⊢
  cases ha : is_valid a <;> (try rw [ha] at h) <;> (try rw [ha])
  case false => simp at h
  case true =>
    cases hb : is_valid b <;> (try rw [hb] at h) <;> (try rw [hb])
    case false => simp at h
    case true =>
      simp only [Bool.not_true, Bool.or_self, if_false] at h ⊢
      cases hst : hasStar a || hasStar b <;> (try rw [hst] at h) <;> (try rw [hst])
      case false =>
        simp only [Bool.false_eq_true, if_false] at h ⊢
        cases hx : parseVersion a <;> (try rw [hx] at h) <;> (try rw [hx])
        case none =>
          cases hy : parseVersion b <;> (try rw [hy] at h) <;> (try rw [hy]) <;>
            exact custom_eq_imp_not_gt a b h
        case some k1 =>
          cases hy : parseVersion b <;> (try rw [hy] at h) <;> (try rw [hy])
          case none => exact custom_eq_imp_not_gt a b h
          case some k2 => exact exec_eq_then_gt _ h
      case true =>
        cases hn : normalize_wildcard a b <;> (try rw [hn] at h) <;> (try rw [hn])
        case error e => exact Except.noConfusion h
        case ok p =>
          obtain ⟨x, y⟩ := p
          replace h :
              (match parseVersion x, parseVersion y with
               | some k1, some k2 => execute_comparison (keyCmp k1 k2) "=="
               | _, _ => custom_compare x "==" y) = Except.ok true := h
          show (match parseVersion x, parseVersion y with
               | some k1, some k2 => execute_comparison (keyCmp k1 k2) ">"
               | _, _ => custom_compare x ">" y) = Except.ok false
          cases hx : parseVersion x <;> (try rw [hx] at h) <;> (try rw [hx])
          case none =>
            cases hy : parseVersion y <;> (try rw [hy] at h) <;> (try rw [hy]) <;>
              exact custom_eq_imp_not_gt x y h
          case some k1 =>
            cases hy : parseVersion y <;> (try rw [hy] at h) <;> (try rw [hy])
            case none => exact custom_eq_imp_not_gt x y h
            case some k2 => exact exec_eq_then_gt _ h

theorem zeroMatch_str (s : String) (h : zeroMatch (.str s) = true)
    (hv : is_valid s = true) : compare s "==" "0" = .ok true := by
  simp only [zeroMatch, hv, Bool.not_true, Bool.false_or] at h
  cases hc : compare s "==" "0" <;> rw [hc] at h
  case error e => simp at h
  case ok r => cases r with
    | true => rfl
    | false => simp at h

theorem findHigherGo_zero (l : List PyVal)
    (h : ∀ m ∈ l, zeroMatch m = true) :
    findHigherGo "0" l = .ok none := by
  induction l with
  | nil => rfl
  | cons m rest ih =>
    have hm := h m (by simp)
    have hrest : ∀ x ∈ rest, zeroMatch x = true :=
      fun x hx => h x (by simp [hx])
    cases m with
    | tuple ss => simp [zeroMatch] at hm
    | str s =>
      simp only [findHigherGo]
      cases hv : is_valid s with
      | false => simpa [hv] using ih hrest
      | true =>
        have heq := zeroMatch_str s hm hv
        have hgt := compare_eq_imp_not_gt s "0" heq
        simp only [hv, Bool.not_true, Bool.false_eq_true, if_false, hgt]
        exact ih hrest

theorem extractGo_zero (ps : List (Nat × SfxKind)) (text : String)
    (h : ∀ p ∈ ps, ∀ m ∈ findall p text, zeroMatch m = true) :
    extractGo ps text = .ok none := by
  induction ps with
  | nil => rfl
  | cons p rest ih =>
    have hp : find_higher (findall p text) = .ok none :=
      findHigherGo_zero _ (h p (by simp))
    have hrest : ∀ q ∈ rest, ∀ m ∈ findall q text, zeroMatch m = true :=
      fun q hq => h q (by simp [hq])
    simp only [extractGo, hp]
    exact ih hrest

/-! Section: Supported operators never raise out of compare -/

theorem splitDots_ne_nil : ∀ cs : List Char, splitDots cs ≠ [] := by
  intro cs
  cases cs with
  | nil => simp [splitDots]
  | cons c t =>
    simp only [splitDots]
    split
    · simp
    · split <;> simp

theorem isCore_head (cs : List Char) (h : isCore cs = true) :
    ∃ c t, cs = c :: t ∧ c.isDigit = true := by
  cases cs with
  | nil => exact absurd h (by decide)
  | cons c t =>
    refine ⟨c, t, rfl, ?_⟩
    by_contra hc
    rw [Bool.not_eq_true] at hc
    have hfirst : ∃ g1 gs, splitDots (c :: t) = g1 :: gs ∧ digitsGroup g1 = false := by
      by_cases hdot : c = '.'
      · exact ⟨[], splitDots t, by simp [splitDots, hdot], by simp [digitsGroup]⟩
      · rcases hsp : splitDots t with _ | ⟨g, gs⟩
        · exact absurd hsp (splitDots_ne_nil t)
        · exact ⟨c :: g, gs, by simp [splitDots, hdot, hsp],
            by simp [digitsGroup, hc]⟩
    obtain ⟨g1, gs, hsp, hg⟩ := hfirst
    unfold isCore at h
    rw [hsp] at h
    rcases gs with _ | ⟨g2, _ | ⟨g3, _ | ⟨g4, _ | ⟨g5, r5⟩⟩⟩⟩ <;> simp [hg] at h

theorem is_valid_head (v : String) (h : is_valid v = true) :
    ∃ c t, v.data = c :: t ∧ c.isDigit = true := by
  unfold is_valid at h
  rw [List.any_eq_true] at h
  obtain ⟨i, _, hi⟩ := h
  rw [Bool.and_eq_true] at hi
  obtain ⟨c, t, hct, hc⟩ := isCore_head _ hi.1
  cases hv : v.data with
  | nil => rw [hv] at hct; simp at hct
  | cons d r =>
    rw [hv] at hct
    cases i with
    | zero => simp at hct
    | succ j =>
      rw [List.take_succ_cons] at hct
      injection hct with h1 _
      exact ⟨d, r, rfl, by rw [h1]; exact hc⟩

theorem takeDigits_head (cs : List Char) (d : Char) (ds r : List Char)
    (h : takeDigits cs = (d :: ds, r)) : d.isDigit = true := by
  cases cs with
  | nil => simp [takeDigits] at h
  | cons x t =>
    by_cases hx : x.isDigit = true
    · rcases htd : takeDigits t with ⟨ds', r'⟩
      simp only [takeDigits, hx, if_true, htd] at h
      injection h with h1 _
      injection h1 with h3 _
      rw [← h3]
      exact hx
    · rw [Bool.not_eq_true] at hx
      simp [takeDigits, hx] at h

theorem split_suffix_of_head_digit (v : String) (c : Char) (t : List Char)
    (hv : v.data = c :: t) (hc : c.isDigit = true) :
    ∃ p, split_suffix v = some p := by
  unfold split_suffix
  rw [hv]
  rcases htd : takeDigits t with ⟨ds, r⟩
  simp only [takeDigits, hc, if_true, htd]
  exact ⟨_, rfl⟩

theorem split_suffix_core_head (v cr : String) (s : Option String)
    (h : split_suffix v = some (cr, s)) :
    ∃ c t, cr.data = c :: t ∧ c.isDigit = true := by
  unfold split_suffix at h
  rcases htd : takeDigits v.data with ⟨ds, r⟩
  rw [htd] at h
  cases ds with
  | nil => simp at h
  | cons c ds' =>
    have hc : c.isDigit = true := takeDigits_head v.data c ds' r htd
    refine ⟨c, ds' ++ (coreMore 2 r).1 ++ (coreFin (coreMore 2 r).2).1, ?_, hc⟩
    rcases hm1 : coreMore 2 r with ⟨m1, r1⟩
    rcases hm2 : coreFin r1 with ⟨m2, r2⟩
    simp only [hm1, hm2] at h
    injection h with h1
    injection h1 with hcr _
    rw [← hcr]
    simp [mkStr, hm1, hm2]

theorem exec_isOk (c : Ordering) (op : String)
    (hop : SUPPORTED_COMPARISONS.contains op = true) :
    ∃ r, execute_comparison c op = .ok r := by
  have hmem : op ∈ SUPPORTED_COMPARISONS := by
    simpa using hop
  simp only [SUPPORTED_COMPARISONS, List.mem_cons, List.not_mem_nil, or_false] at hmem
  rcases hmem with h | h | h | h | h <;> rw [h] <;> exact ⟨_, rfl⟩

theorem custom_isOk (a b op : String)
    (hha : ∃ c t, a.data = c :: t ∧ c.isDigit = true)
    (hhb : ∃ c t, b.data = c :: t ∧ c.isDigit = true)
    (hop : SUPPORTED_COMPARISONS.contains op = true) :
    ∃ r, custom_compare a op b = .ok r := by
  obtain ⟨c1, t1, hv1, hc1⟩ := hha
  obtain ⟨c2, t2, hv2, hc2⟩ := hhb
  obtain ⟨⟨v1, s1⟩, hs1⟩ := split_suffix_of_head_digit a c1 t1 hv1 hc1
  obtain ⟨⟨v2, s2⟩, hs2⟩ := split_suffix_of_head_digit b c2 t2 hv2 hc2
  simp only [custom_compare, hs1, hs2]
  cases parseParts v1 with
  | none => cases parseParts v2 <;> exact exec_isOk _ op hop
  | some l1 =>
    cases parseParts v2 with
    | none => exact exec_isOk _ op hop
    | some l2 =>
      clear hs1 hs2 hv1 hv2 hc1 hc2
      show ∃ r, (match partsCmp l1 l2 with
        | Ordering.lt => Except.ok (["<", "<="].contains op)
        | Ordering.gt => Except.ok ([">", ">="].contains op)
        | Ordering.eq =>
          match s1, s2 with
          | none, none => Except.ok (["==", "<=", ">="].contains op)
          | none, some _ => Except.ok (["<", "<="].contains op)
          | some _, none => Except.ok ([">", ">="].contains op)
          | some x, some y =>
            match execute_comparison (strCmp x y) op with
            | .ok r => Except.ok r
            | .error _ => execute_comparison (strCmp a b) op) = Except.ok r
      cases partsCmp l1 l2 with
      | lt => exact ⟨_, rfl⟩
      | gt => exact ⟨_, rfl⟩
      | eq =>
        cases s1 with
        | none => cases s2 <;> exact ⟨_, rfl⟩
        | some x =>
          cases s2 with
          | none => exact ⟨_, rfl⟩
          | some y =>
            obtain ⟨r, hr⟩ := exec_isOk (strCmp x y) op hop
            refine ⟨r, ?_⟩
            show (match execute_comparison (strCmp x y) op with
                  | .ok u => Except.ok u
                  | .error _ => execute_comparison (strCmp a b) op) = Except.ok r
            rw [hr]

theorem fstr_head (v : String) (s : Option String) (c : Char) (t : List Char)
    (hv : v.data = c :: t) : ∃ u, (fstr v s).data = c :: u := by
  cases s <;> simp [fstr, hv]

theorem replaceStar_head (v : String) (c : Char) (t : List Char)
    (hv : v.data = c :: t) (hc : c.isDigit = true) :
    ∃ u, (replaceStar v).data = c :: u ∧ c.isDigit = true := by
  have hne : ¬c = '*' := by
    intro hcc
    rw [hcc] at hc
    exact absurd hc (by decide)
  refine ⟨t.map fun x => if x = '*' then '0' else x, ?_, hc⟩
  simp [replaceStar, mkStr, hv, hne]

theorem compare_isOk (a b op : String)
    (hop : SUPPORTED_COMPARISONS.contains op = true) :
    ∃ r, compare a op b = .ok r := by
  unfold compare
  cases ha : is_valid a with
  | false => exact ⟨false, by simp [ha]⟩
  | true =>
    cases hb : is_valid b with
    | false => exact ⟨false, by simp [ha, hb]⟩
    | true =>
      simp only [ha, hb, Bool.not_true, Bool.or_self, if_false]
      have hha := is_valid_head a ha
      have hhb := is_valid_head b hb
      cases hst : hasStar a || hasStar b with
      | false =>
        simp only [Bool.false_eq_true, if_false]
        cases parseVersion a with
        | none => cases parseVersion b <;> exact custom_isOk a b op hha hhb hop
        | some k1 =>
          cases parseVersion b with
          | none => exact custom_isOk a b op hha hhb hop
          | some k2 => exact exec_isOk _ op hop
      | true =>
        simp only [if_true]
        obtain ⟨c1, t1, hv1, hc1⟩ := hha
        obtain ⟨c2, t2, hv2, hc2⟩ := hhb
        obtain ⟨⟨v1, s1⟩, hs1⟩ := split_suffix_of_head_digit a c1 t1 hv1 hc1
        obtain ⟨⟨v2, s2⟩, hs2⟩ := split_suffix_of_head_digit b c2 t2 hv2 hc2
        simp only [normalize_wildcard, hs1, hs2]
        obtain ⟨d1, u1, hcr1, hd1⟩ := split_suffix_core_head a v1 s1 hs1
        obtain ⟨d2, u2, hcr2, hd2⟩ := split_suffix_core_head b v2 s2 hs2
        obtain ⟨w1, hw1, hdd1⟩ := replaceStar_head v1 d1 u1 hcr1 hd1
        obtain ⟨w2, hw2, hdd2⟩ := replaceStar_head v2 d2 u2 hcr2 hd2
        have hx1 := fstr_head (replaceStar v1)
          (if optHasStar s1 || optHasStar s2 then (none, none) else (s1, s2)).1 d1 w1 hw1
        have hx2 := fstr_head (replaceStar v2)
          (if optHasStar s1 || optHasStar s2 then (none, none) else (s1, s2)).2 d2 w2 hw2
        obtain ⟨q1, hq1⟩ := hx1
        obtain ⟨q2, hq2⟩ := hx2
        cases parseVersion (fstr (replaceStar v1)
            (if optHasStar s1 || optHasStar s2 then (none, none) else (s1, s2)).1) with
        | none =>
          cases parseVersion (fstr (replaceStar v2)
              (if optHasStar s1 || optHasStar s2 then (none, none) else (s1, s2)).2) <;>
            exact custom_isOk _ _ op ⟨d1, q1, hq1, hdd1⟩ ⟨d2, q2, hq2, hdd2⟩ hop
        | some k1 =>
          cases parseVersion (fstr (replaceStar v2)
              (if optHasStar s1 || optHasStar s2 then (none, none) else (s1, s2)).2) with
          | none => exact custom_isOk _ _ op ⟨d1, q1, hq1, hdd1⟩ ⟨d2, q2, hq2, hdd2⟩ hop
          | some k2 => exact exec_isOk _ op hop

theorem boundFails_isOk (v : String) (b : Option String) (op : String)
    (hop : SUPPORTED_COMPARISONS.contains op = true) :
    ∃ r, boundFails v b op = .ok r := by
  cases b with
  | none => exact ⟨false, rfl⟩
  | some s =>
    unfold boundFails
    cases hse : s == "" with
    | true => exact ⟨false, by simp [hse]⟩
    | false =>
      obtain ⟨r, hr⟩ := compare_isOk v s op hop
      exact ⟨!r, by simp [hse, hr]⟩

theorem is_covered_isOk (v : String) (mn mx : Option String) (inc : Bool) :
    ∃ r, is_covered v mn mx inc = .ok r := by
  unfold is_covered
  cases hc : !(optTruthy mn) && !(optTruthy mx) with
  | true => exact ⟨true, by simp⟩
  | false =>
    have hop1 : SUPPORTED_COMPARISONS.contains (if inc then ">=" else ">") = true := by
      cases inc <;> rfl
    have hop2 : SUPPORTED_COMPARISONS.contains (if inc then "<=" else "<") = true := by
      cases inc <;> rfl
    obtain ⟨r1, h1⟩ := boundFails_isOk v mn (if inc then ">=" else ">") hop1
    obtain ⟨r2, h2⟩ := boundFails_isOk v mx (if inc then "<=" else "<") hop2
    simp only [Bool.false_eq_true, if_false, h1, h2]
    cases r1 with
    | true => exact ⟨false, rfl⟩
    | false =>
      cases r2 with
      | true => exact ⟨false, rfl⟩
      | false => exact ⟨true, rfl⟩

theorem padTo_cons (n : Nat) (x : Nat) (t : List Nat) :
    padTo (n + 1) (x :: t) = x :: padTo n t := by
  simp [padTo, Nat.succ_sub_succ]

theorem padTo_self (l : List Nat) : padTo l.length l = l := by
  simp [padTo]

theorem padCmp_nil (ys : List Nat) :
    (match firstUnequal ((List.replicate ys.length 0).zip ys) with
     | some (x, y) => if x < y then Ordering.lt else Ordering.gt
     | none => Ordering.eq) = partsCmpNil ys := by
  induction ys with
  | nil => rfl
  | cons y t ih =>
    cases y with
    | zero =>
      simp only [List.length_cons, List.replicate_succ, List.zip_cons_cons,
        firstUnequal, List.find?] at ih ⊢
      simpa [partsCmpNil, natCmp] using ih
    | succ m =>
      simp [firstUnequal, List.find?, partsCmpNil, natCmp, List.replicate_succ,
        Ordering.then]

theorem padCmp_nil2 (xs : List Nat) :
    (match firstUnequal (xs.zip (List.replicate xs.length 0)) with
     | some (x, y) => if x < y then Ordering.lt else Ordering.gt
     | none => Ordering.eq) = partsCmp xs [] := by
  induction xs with
  | nil => rfl
  | cons x t ih =>
    cases x with
    | zero =>
      simp only [List.length_cons, List.replicate_succ, List.zip_cons_cons,
        firstUnequal, List.find?] at ih ⊢
      simpa [partsCmp, natCmp] using ih
    | succ m =>
      simp [firstUnequal, List.find?, partsCmp, natCmp, List.replicate_succ,
        Ordering.then]

theorem padCmp_eq (p1 : List Nat) : ∀ p2 : List Nat,
    (match firstUnequal ((padTo (max p1.length p2.length) p1).zip
                         (padTo (max p1.length p2.length) p2)) with
     | some (x, y) => if x < y then Ordering.lt else Ordering.gt
     | none => Ordering.eq) = partsCmp p1 p2 := by
  induction p1 with
  | nil =>
    intro p2
    have hm : max ([] : List Nat).length p2.length = p2.length := by simp
    rw [hm]
    have h1 : padTo p2.length ([] : List Nat) = List.replicate p2.length 0 := by
      simp [padTo]
    rw [h1, padTo_self]
    exact padCmp_nil p2
  | cons x t ih =>
    intro p2
    cases p2 with
    | nil =>
      have hm : max (x :: t).length ([] : List Nat).length = (x :: t).length := by
        simp
      rw [hm, padTo_self]
      have h1 : padTo (x :: t).length ([] : List Nat) =
          List.replicate (x :: t).length 0 := by simp [padTo]
      rw [h1]
      exact padCmp_nil2 (x :: t)
    | cons y u =>
      have hm : max (x :: t).length (y :: u).length = max t.length u.length + 1 := by
        simp [Nat.succ_max_succ]
      rw [hm, padTo_cons, padTo_cons]
      by_cases hxy : x = y
      · subst hxy
        simp only [List.zip_cons_cons, firstUnequal, List.find?, beq_self_eq_true,
          Bool.not_true]
        have := ih u
        simp only [firstUnequal] at this
        (try simp only [List.zip_eq_zipWith] at this)
        (try simp only [List.zip_eq_zipWith])
        rw [this]
        simp [partsCmp, natCmp_refl, Ordering.then]
      · have hneq : (x == y) = false := by simp [hxy]
        simp only [List.zip_cons_cons, firstUnequal, List.find?, hneq, Bool.not_false]
        by_cases hlt : x < y
        · simp [partsCmp, natCmp, hlt, hxy, Ordering.then]
        · simp [partsCmp, natCmp, hlt, hxy, Ordering.then]

/-! Section: The claims -/

/-- C1: the claim states that `extract` never raises — for every input it
returns a version string or none.  In the code, every extraction pattern
with a suffix group has two capture groups, so `re.findall` returns a list
of pairs, and `find_higher` then calls `is_valid` on a pair, making
`re.match` raise `TypeError`.  Evaluating the engine at the concrete text
"1.0-alpha" shows `extract` raising rather than returning a result. -/
theorem c1_extract_raises_on_delimited_suffix :
    extract "1.0-alpha" = .error .typeError := rfl

/-- C2 counterexample: the claim states `compare("1.2.*", "==", "1.2.9")`
returns true, but the engine returns false — the wildcard is normalized to
`0`, so the comparison is between 1.2.0-like and 1.2.9-like values. -/
theorem c2_counterexample :
    compare "1.2.*" "==" "1.2.9" = .ok false := rfl

/-- C2 (amended): wildcard equality does not treat `*` as "match anything":
`compare("1.2.*", "==", "1.2.9")` returns false (the wildcard component is
replaced by `0`, and 1.2.0 is not equal to 1.2.9), and
`compare("1.*.0", "==", "1.5.1")` returns false (a wildcard is only allowed
as the final numeric component, so `1.*.0` fails validation). -/
theorem c2_amended_wildcard_equality :
    compare "1.2.*" "==" "1.2.9" = .ok false ∧
    compare "1.*.0" "==" "1.5.1" = .ok false := ⟨rfl, rfl⟩

/-- C3: the claim states `extract("build 2.4.1-rc1 stable")` returns
"2.4.1-rc1".  In the code the first pattern that matches this text is the
three-part delimited-suffix pattern, whose two capture groups make
`re.findall` return `("2.4.1", "-rc1")` pairs; `is_valid` applied to that
pair raises `TypeError`, so `extract` raises instead of returning the
qualified identifier. -/
theorem c3_extract_specificity_raises :
    extract "build 2.4.1-rc1 stable" = .error .typeError := rfl

/-- C4 counterexample: the claim states a malformed value makes `is_covered`
propagate an error; but for the malformed value "not-a-version" against the
bound "1.0.0", `compare` fail-closes to false and `is_covered` returns the
boolean false without raising. -/
theorem c4_counterexample :
    is_valid "not-a-version" = false ∧
    is_covered "not-a-version" (some "1.0.0") none true = .ok false :=
  ⟨rfl, rfl⟩

/-- C4 (amended): `is_covered` never raises.  Its bound checks only use the
supported operators, `compare` returns false on any invalid input instead of
raising, and the numeric parsing of the custom comparator cannot fail on
strings that passed validation (or their normalizations), so for every
value, bounds and flag `is_covered` returns a boolean and the error-wrapping
path is unreachable. -/
theorem c4_is_covered_never_raises (v : String) (mn mx : Option String)
    (inc : Bool) : ∃ r, is_covered v mn mx inc = .ok r :=
  is_covered_isOk v mn mx inc

/-- C5 counterexample: the claim states every unsupported operator raises for
every pair of valid version strings; but "1.0_lts" and "2.0_lts" are valid,
fall to the custom comparator (not standard forms), and their first numeric
components differ, so `compare` with the unsupported operator "!=" silently
returns the boolean false instead of raising. -/
theorem c5_counterexample :
    is_valid "1.0_lts" = true ∧ is_valid "2.0_lts" = true ∧
    compare "1.0_lts" "!=" "2.0_lts" = .ok false := ⟨rfl, rfl, rfl⟩

/-- C5 (amended): an operator outside the supported set raises whenever the
comparison reaches an operator dispatch; in particular, for every pair of
valid wildcard-free version strings that both parse under the standard
grammar, `compare` with an unsupported operator raises the
unsupported-comparison error.  (On the custom path, a numeric difference
instead returns membership of the operator in the `<`/`>` family, which is
false for unsupported operators — see the counterexample.) -/
theorem c5_unsupported_op_raises_on_standard_forms (op a b : String)
    (hop : SUPPORTED_COMPARISONS.contains op = false)
    (ha : is_valid a = true) (hb : is_valid b = true)
    (hsa : hasStar a = false) (hsb : hasStar b = false)
    (hpa : (parseVersion a).isSome = true)
    (hpb : (parseVersion b).isSome = true) :
    compare a op b = .error .unsupportedComparison := by
  unfold compare
  rw [ha, hb, hsa, hsb]
  simp only [Bool.not_true, Bool.or_self, if_false, Bool.false_eq_true]
  cases hka : parseVersion a with
  | none => rw [hka] at hpa; simp at hpa
  | some k1 =>
    cases hkb : parseVersion b with
    | none => rw [hkb] at hpb; simp at hpb
    | some k2 =>
      show execute_comparison (keyCmp k1 k2) op = .error .unsupportedComparison
      unfold execute_comparison
      rw [hop]
      simp

/-- C5 witness: the amended theorem applied at the unsupported operator "!="
and the standard-form pair "1.0" and "2.0". -/
theorem c5_witness :
    SUPPORTED_COMPARISONS.contains "!=" = false ∧ is_valid "1.0" = true ∧
    is_valid "2.0" = true ∧ hasStar "1.0" = false ∧ hasStar "2.0" = false ∧
    (parseVersion "1.0").isSome = true ∧ (parseVersion "2.0").isSome = true ∧
    compare "1.0" "!=" "2.0" = .error .unsupportedComparison :=
  ⟨rfl, rfl, rfl, rfl, rfl, rfl, rfl,
    c5_unsupported_op_raises_on_standard_forms "!=" "1.0" "2.0"
      rfl rfl rfl rfl rfl rfl rfl⟩

/-- C6: the claim states wildcard normalization replaces wildcard components
with `0` and optionally discards suffixes, after which conforming strings
are compared by the standard ordering.  In the code, an absent suffix is
interpolated into an f-string as the literal text "None":
normalizing "1.2.*" against "1.2.0_rc1" yields "1.2.0None" (not "1.2.0"),
which no longer conforms to the standard grammar, so the pair falls to the
custom comparator and `compare("1.2.*", "<", "1.2.0_rc1")` returns true —
whereas the claim's algorithm would compare 1.2.0 with the pre-release
1.2.0rc1 under the standard ordering and return false. -/
theorem c6_normalize_appends_none_text :
    normalize_wildcard "1.2.*" "1.2.0_rc1" = .ok ("1.2.0None", "1.2.0_rc1") ∧
    compare "1.2.*" "<" "1.2.0_rc1" = .ok true := ⟨rfl, rfl⟩

/-- C7 counterexample: the claim's presence rule says a token with a suffix
is lesser than the same numeric prefix with no suffix; but on the valid
grammar tokens "2.0_lts" and "2.0" the custom comparator returns false for
`<` and true for `>` — the suffixed token is treated as greater. -/
theorem c7_counterexample :
    is_valid "2.0_lts" = true ∧ is_valid "2.0" = true ∧
    custom_compare "2.0_lts" "<" "2.0" = .ok false ∧
    custom_compare "2.0_lts" ">" "2.0" = .ok true := ⟨rfl, rfl, rfl, rfl⟩

/-- C7 (amended): the custom comparator zero-pads the shorter numeric
sequence on the right and compares component-wise with the first unequal
pair deciding via the operator's `<`/`>` family; when the numeric parts are
fully equal a token WITH a suffix is GREATER than the same numeric prefix
with no suffix, two suffixes compare lexicographically under the same
operator, and a numeric-parse failure falls back to plain lexicographic
comparison — stated as equality with a comparator built from those words. -/
theorem c7_custom_compare_matches_amended_spec (a op b : String) :
    custom_compare a op b = spec_custom_compare a op b := by
  cases hsa : split_suffix a with
  | none =>
    cases hsb : split_suffix b <;>
      simp [custom_compare, spec_custom_compare, hsa, hsb]
  | some p1 =>
    cases hsb : split_suffix b with
    | none => simp [custom_compare, spec_custom_compare, hsa, hsb]
    | some p2 =>
      obtain ⟨v1, s1⟩ := p1
      obtain ⟨v2, s2⟩ := p2
      simp only [custom_compare, spec_custom_compare, hsa, hsb]
      clear hsa hsb
      cases parseParts v1 with
      | none => cases parseParts v2 <;> rfl
      | some l1 =>
        cases parseParts v2 with
        | none => rfl
        | some l2 =>
          show (match partsCmp l1 l2 with
                | Ordering.lt => Except.ok (["<", "<="].contains op)
                | Ordering.gt => Except.ok ([">", ">="].contains op)
                | Ordering.eq =>
                  match s1, s2 with
                  | none, none => Except.ok (["==", "<=", ">="].contains op)
                  | none, some _ => Except.ok (["<", "<="].contains op)
                  | some _, none => Except.ok ([">", ">="].contains op)
                  | some x, some y =>
                    match execute_comparison (strCmp x y) op with
                    | .ok r => Except.ok r
                    | .error _ => execute_comparison (strCmp a b) op) =
            (match firstUnequal ((padTo (max l1.length l2.length) l1).zip
                                 (padTo (max l1.length l2.length) l2)) with
             | some (x, y) =>
               if x < y then Except.ok (ltFamily.contains op)
               else Except.ok (gtFamily.contains op)
             | none =>
               match s1, s2 with
               | none, none => Except.ok (eqFamily.contains op)
               | none, some _ => Except.ok (ltFamily.contains op)
               | some _, none => Except.ok (gtFamily.contains op)
               | some x, some y =>
                 match execute_comparison (strCmp x y) op with
                 | .ok r => Except.ok r
                 | .error _ => execute_comparison (strCmp a b) op)
          rw [← padCmp_eq l1 l2]
          cases firstUnequal ((padTo (max l1.length l2.length) l1).zip
                              (padTo (max l1.length l2.length) l2)) with
          | none => cases s1 <;> cases s2 <;> rfl
          | some pr =>
            obtain ⟨x, y⟩ := pr
            by_cases hlt : x < y
            · simp [hlt, ltFamily]
            · simp [hlt, gtFamily]

/-- C8: antisymmetry of the engine's ordering — for every pair of strings
that both pass `is_valid`, `compare(a, "<", b)` returns the same result as
`compare(b, ">", a)`.  (The property in fact holds for all strings; the
validity hypotheses restate the claim's scope.) -/
theorem c8_antisymmetry (a b : String)
    (ha : is_valid a = true) (hb : is_valid b = true) :
    compare a "<" b = compare b ">" a :=
  compare_lt_gt a b

/-- C8 witness: antisymmetry applied at the concrete valid pair "1.5.0" and
"2.0.0". -/
theorem c8_witness :
    is_valid "1.5.0" = true ∧ is_valid "2.0.0" = true ∧
    compare "1.5.0" "<" "2.0.0" = compare "2.0.0" ">" "1.5.0" :=
  ⟨rfl, rfl, c8_antisymmetry "1.5.0" "2.0.0" rfl rfl⟩

/-- C9: the zero-version sentinel — for every text whose `findall` matches
are all plain strings that, when valid, compare equal to "0" under the
engine (e.g. the texts "0", "0.0", "0.0.0"), `extract` returns none rather
than the matched version, because `find_higher` starts from the sentinel
string "0" and only returns a candidate that compares strictly greater. -/
theorem c9_zero_sentinel_extracts_none (text : String)
    (h : ∀ p ∈ EXTRACTION_PATTERNS, ∀ m ∈ findall p text, zeroMatch m = true) :
    extract text = .ok none :=
  extractGo_zero EXTRACTION_PATTERNS text h

/-- C9 witness: the sentinel property applied at the concrete text "0.0",
whose only matches are the strings "0.0", "0" and "0", all comparing equal
to "0". -/
theorem c9_witness :
    (∀ p ∈ EXTRACTION_PATTERNS, ∀ m ∈ findall p "0.0", zeroMatch m = true) ∧
    extract "0.0" = .ok none :=
  ⟨by decide, c9_zero_sentinel_extracts_none "0.0" (by decide)⟩

/-- C10: empty-string bounds behave as absent bounds — for every version
string and both values of the inclusive flag, `is_covered(v, "", "",
inclusive)` returns true (the empty string is falsy in Python, so the
no-bounds early return fires before any comparison). -/
theorem c10_empty_string_bounds_trivially_covered (v : String) (inc : Bool) :
    is_covered v (some "") (some "") inc = .ok true := rfl

end VersionCheck
